import Mathlib

/-!
Verification development for the actor-graph game service.

The definitions below are a shallow embedding of the backend sources
(`backend/game_logic.py`, `backend/main.py`, `backend/daily_puzzle.py`).
Pure Python functions become Lean functions; the mutable game object is
explicit state passing over a `GameState` record; dictionaries become
association lists that preserve insertion order; Python `float`
popularity values are modelled as exact rationals; calendar dates
(`YYYYMMDD` strings, ordered lexicographically = chronologically) are
modelled as natural day numbers with the same order.  Human-readable
messages and poster URLs returned alongside results are omitted: no
claim depends on them.
-/

namespace MovieLinks

/-- A movie connector as stored on a graph edge and in `movies_used`
(`id`, `title`, `poster_path`, `popularity`, `cast_size`,
`release_date` keys of the Python dict). -/
structure Movie where
  id : Int
  title : String
  poster_path : Option String := none
  popularity : Rat := 0
  cast_size : Nat := 0
  release_date : String := ""
deriving DecidableEq

/-- Node attributes used by the endpoints under verification; remaining
attributes (profile image, external id, ...) are never read by the
embedded operations. -/
structure NodeData where
  name : String := ""
  in_playable_graph : Bool := false
  in_starting_pool : Bool := false
deriving DecidableEq

/-- The in-memory actor-actor graph: nodes with attributes, undirected
edges carrying a `movies` list.  Lists keep networkx insertion order. -/
structure ActorGraph where
  nodes : List (String × NodeData)
  edges : List (String × String × List Movie)
deriving DecidableEq

/-- Undirected edge lookup: an edge `(u, v, ms)` matches `{a, b}` in
either orientation. -/
def findEdge (g : ActorGraph) (a b : String) : Option (List Movie) :=
  g.edges.findSome? fun e =>
    if (e.1 = a ∧ e.2.1 = b) ∨ (e.1 = b ∧ e.2.1 = a) then some e.2.2 else none

/-- `graph.has_edge(a, b)`. -/
def has_edge (g : ActorGraph) (a b : String) : Bool :=
  (findEdge g a b).isSome

/-- `get_movies_between_actors` (game_logic.py): `[]` when there is no
edge, otherwise the edge's `movies` attribute (default `[]`). -/
def get_movies_between_actors (g : ActorGraph) (a b : String) : List Movie :=
  (findEdge g a b).getD []

/-- One credit of `actor_movies`; only `movie_id` is ever read by the
validation code (cast order, vote count, ... are unused). -/
structure Credit where
  movie_id : Int
deriving DecidableEq

/-- An entry of the index's `movies` map. -/
structure IndexMovie where
  title : String
  poster_path : Option String := none
  popularity : Rat := 0
  cast_size : Nat := 0
  release_date : String := ""
deriving DecidableEq

/-- The comprehensive actor-movie index (`movies` and `actor_movies`
dictionaries). -/
structure ActorMovieIndex where
  movies : List (Int × IndexMovie)
  actor_movies : List (Int × List Credit)
deriving DecidableEq

/-- `movie_id in index["movies"]` / `index["movies"][movie_id]`. -/
def lookupIndexMovie (i : ActorMovieIndex) (mid : Int) : Option IndexMovie :=
  (i.movies.find? fun e => e.1 == mid).map (·.2)

/-- `index["actor_movies"].get(tmdb_id, [])`. -/
def actorCredits (i : ActorMovieIndex) (tmdb : Int) : List Credit :=
  ((i.actor_movies.find? fun e => e.1 == tmdb).map (·.2)).getD []

/-- `any(m["movie_id"] == movie_id for m in filmography)`. -/
def actorHasMovie (i : ActorMovieIndex) (tmdb mid : Int) : Bool :=
  (actorCredits i tmdb).any fun c => c.movie_id == mid

/-- `str.split(sep)` over explicit character lists (the accumulator
holds the current field reversed). -/
def splitOnCharAux (sep : Char) : List Char → List Char → List (List Char)
  | [], acc => [acc.reverse]
  | c :: rest, acc =>
    if c = sep then acc.reverse :: splitOnCharAux sep rest []
    else splitOnCharAux sep rest (c :: acc)

/-- `node.split("_")`. -/
def splitUnderscore (s : String) : List (List Char) :=
  splitOnCharAux '_' s.toList []

def digitsToNatAux : List Char → Nat → Option Nat
  | [], acc => some acc
  | c :: rest, acc =>
    if c.isDigit then digitsToNatAux rest (acc * 10 + (c.toNat - 48)) else none

/-- Parse a non-empty all-digit string. -/
def digitsToNat : List Char → Option Nat
  | [] => none
  | cs => digitsToNatAux cs 0

/-- Python `int(s)` for the strings that occur as node-id components:
an optional minus sign followed by digits; anything else raises
(`none`). -/
def parseInt (cs : List Char) : Option Int :=
  match cs with
  | '-' :: rest => (digitsToNat rest).map fun n => -(n : Int)
  | _ => (digitsToNat cs).map fun n => (n : Int)

/-- `int(node.split("_")[1])`: `none` models both the `IndexError`
(no second component) and the `ValueError` (not an integer). -/
def parseTmdbId (node : String) : Option Int :=
  match (splitUnderscore node).drop 1 with
  | [] => none
  | s :: _ => parseInt s

/-- The movie dict constructed from index data (with the `.get`
defaults of the source). -/
def mkIndexMovieDict (mid : Int) (md : IndexMovie) : Movie :=
  { id := mid, title := md.title, poster_path := md.poster_path,
    popularity := md.popularity, cast_size := md.cast_size,
    release_date := md.release_date }

/-- `_validate_with_comprehensive_index` (game_logic.py).  The Python
function also receives the graph but never reads it. -/
def validate_with_comprehensive_index (current candidate : String)
    (mid : Int) (i : ActorMovieIndex) : Option (Movie × String) :=
  match parseTmdbId current, parseTmdbId candidate with
  | some ca, some cb =>
    match lookupIndexMovie i mid with
    | none => none
    | some md =>
      if actorHasMovie i ca mid && actorHasMovie i cb mid then
        some (mkIndexMovieDict mid md, candidate)
      else none
  | _, _ => none

/-- `pick_movie_and_actor` (game_logic.py): scan candidates in order;
for a connected candidate try the comprehensive index first, then fall
back to the edge's movie list. -/
def pick_movie_and_actor (g : ActorGraph) (current : String) (mid : Int)
    (candidates : List String) (idx : Option ActorMovieIndex) :
    Option (Movie × String) :=
  match candidates with
  | [] => none
  | c :: rest =>
    if has_edge g current c then
      match (match idx with
             | some i => validate_with_comprehensive_index current c mid i
             | none => none) with
      | some r => some r
      | none =>
        match (get_movies_between_actors g current c).find? (fun m => m.id == mid) with
        | some m => some (m, c)
        | none => pick_movie_and_actor g current mid rest idx
    else pick_movie_and_actor g current mid rest idx

/-- The read-only collaborators a `MovieConnectionGame` is constructed
with (`resolve_movie` is stored by the source but never called). -/
structure GameConfig where
  graph : ActorGraph
  actor_movie_index : Option ActorMovieIndex
  resolve_actor : String → List String

/-- The mutable fields of `MovieConnectionGame`. -/
structure GameState where
  start : String
  target : String
  current : String
  path : List String
  movies_used : List Movie
  completed : Bool
  max_incorrect : Nat
  incorrect_guesses : Nat
  total_guesses : Nat
  gave_up : Bool
  pending_movie_id : Option Int
  pending_movie_dict : Option Movie
deriving DecidableEq

/-- `MovieConnectionGame.__init__` (source default `max_incorrect_guesses = 3`). -/
def initGame (start target : String) (maxInc : Nat) : GameState :=
  { start := start, target := target, current := start, path := [start],
    movies_used := [], completed := false, max_incorrect := maxInc,
    incorrect_guesses := 0, total_guesses := 0, gave_up := false,
    pending_movie_id := none, pending_movie_dict := none }

/-- `_inc_incorrect`: bump the counter and complete the game once it
reaches `max_incorrect`. -/
def incIncorrect (s : GameState) : GameState :=
  let t := { s with incorrect_guesses := s.incorrect_guesses + 1 }
  if t.max_incorrect ≤ t.incorrect_guesses then { t with completed := true } else t

/-- `_guess_movie_only`: validate a first-step movie guess against the
index and the current actor's filmography; store it as pending.
The branch for a missing index models Python falsiness of
`self.actor_movie_index` (absent index). -/
def guessMovieOnly (cfg : GameConfig) (s : GameState) (mid : Int) :
    Bool × GameState :=
  let s1 := { s with total_guesses := s.total_guesses + 1 }
  match cfg.actor_movie_index with
  | none => (false, s1)
  | some i =>
    match lookupIndexMovie i mid with
    | none => (false, incIncorrect s1)
    | some md =>
      match parseTmdbId s1.current with
      | none => (false, s1)
      | some ca =>
        if actorHasMovie i ca mid then
          (true, { s1 with pending_movie_id := some mid,
                           pending_movie_dict := some (mkIndexMovieDict mid md) })
        else (false, incIncorrect s1)

/-- `_guess_actor_with_pending_movie`: second step; on acceptance the
segment is completed and the pending movie cleared. -/
def guessActorPending (cfg : GameConfig) (s : GameState) (pendingId : Int)
    (name : String) : Bool × GameState :=
  let s1 := { s with total_guesses := s.total_guesses + 1 }
  let candidates := cfg.resolve_actor name
  if candidates.isEmpty then (false, incIncorrect s1)
  else
    match pick_movie_and_actor cfg.graph s1.current pendingId candidates
        cfg.actor_movie_index with
    | none => (false, incIncorrect s1)
    | some (m, next) =>
      let s2 := { s1 with current := next, path := s1.path ++ [next],
                          movies_used := s1.movies_used ++ [m],
                          pending_movie_id := none, pending_movie_dict := none }
      if s2.current = s2.target then (true, { s2 with completed := true })
      else (true, s2)

/-- The legacy one-shot branch of `guess` (movie and actor together);
it does not touch the pending movie. -/
def guessBoth (cfg : GameConfig) (s : GameState) (mid : Int) (name : String) :
    Bool × GameState :=
  let s1 := { s with total_guesses := s.total_guesses + 1 }
  let candidates := cfg.resolve_actor name
  if candidates.isEmpty then (false, incIncorrect s1)
  else
    match pick_movie_and_actor cfg.graph s1.current mid candidates
        cfg.actor_movie_index with
    | none => (false, incIncorrect s1)
    | some (m, next) =>
      let s2 := { s1 with current := next, path := s1.path ++ [next],
                          movies_used := s1.movies_used ++ [m] }
      if s2.current = s2.target then (true, { s2 with completed := true })
      else (true, s2)

/-- `MovieConnectionGame.guess`: dispatch on the argument pattern.
Returns `(success, new state)`. -/
def guess (cfg : GameConfig) (s : GameState) (movie_id : Option Int)
    (actor_name : Option String) : Bool × GameState :=
  if s.completed then (false, s)
  else
    match movie_id, actor_name with
    | some mid, none => guessMovieOnly cfg s mid
    | none, some name =>
      match s.pending_movie_id with
      | none => (false, s)
      | some pid => guessActorPending cfg s pid name
    | some mid, some name => guessBoth cfg s mid name
    | none, none => (false, s)

/-- `MovieConnectionGame.give_up`. -/
def give_up (s : GameState) : Bool × GameState :=
  if s.completed then (false, s)
  else (true, { s with completed := true,
                       incorrect_guesses := s.max_incorrect, gave_up := true })

/-- The `swap-actors` endpoint body (main.py): 400 error after any
move, otherwise exchange start and target and reset current and path. -/
def swapActors (s : GameState) : Except String GameState :=
  if 0 < s.movies_used.length then
    Except.error "Cannot swap actors after making a move"
  else
    Except.ok { s with start := s.target, target := s.start,
                       current := s.target, path := [s.target] }

/-! ### Session registry (main.py) -/

def GAME_TTL_SECONDS : Int := 7200

def MAX_GAMES : Nat := 5000

/-- `cleanup_expired_games`: delete every entry whose age exceeds the
TTL.  The registry is the insertion-ordered map `game_id ↦ created_at`
(the stored game object is irrelevant to the registry claims). -/
def cleanupExpiredGames (now : Int) (games : List (String × Int)) :
    List (String × Int) :=
  games.filter fun e => !(decide (GAME_TTL_SECONDS < now - e.2))

/-- The registry manipulation performed by `create_game`: run the TTL
sweep, then insert the fresh id with the current time (a new dict key
is appended in insertion order). -/
def createGameRegistryStep (now : Int) (game_id : String)
    (games : List (String × Int)) : List (String × Int) :=
  cleanupExpiredGames now games ++ [(game_id, now)]

/-! ### Path engine (main.py) -/

/-- Python `max(values)` over a movie list's popularity values
(the `if movies:` guards in the source keep this off empty lists; `0`
for an empty list is never observed by the embedded callers). -/
def maxMoviePopularity (ms : List Movie) : Rat :=
  match ms with
  | [] => 0
  | m :: rest => rest.foldl (fun q mv => max q mv.popularity) m.popularity

/-- Total popularity score of an actor path: for each consecutive pair,
add the maximum movie popularity on that edge when its movie list is
non-empty (shared by `get_optimal_path` and `select_diverse_paths`). -/
def pathPopularity (g : ActorGraph) (p : List String) : Rat :=
  (p.zip p.tail).foldl
    (fun acc ab =>
      match get_movies_between_actors g ab.1 ab.2 with
      | [] => acc
      | m :: rest => acc + rest.foldl (fun q mv => max q mv.popularity) m.popularity)
    0

/-- Python `max(l, key=f)`: the first element with maximal key wins
(`none` models the `ValueError` on an empty sequence). -/
def pyMax {α : Type} (l : List α) (f : α → Rat) : Option α :=
  match l with
  | [] => none
  | x :: xs => some (xs.foldl (fun b y => if f b < f y then y else b) x)

/-- Python `min(l)` for a non-empty rational list (`0` never observed:
the embedded caller passes non-empty lists). -/
def pyMinQ (l : List Rat) : Rat :=
  match l with
  | [] => 0
  | x :: xs => xs.foldl min x

/-- The per-path set of most-popular movie ids, one per edge
(`calculate_path_similarity`, first half). -/
def pathTopMovieIds (g : ActorGraph) (p : List String) : Finset Int :=
  ((p.zip p.tail).filterMap fun ab =>
    (pyMax (get_movies_between_actors g ab.1 ab.2) Movie.popularity).map Movie.id).toFinset

/-- `path[1:-1]` as a set: intermediate actors. -/
def intermediateActors (p : List String) : Finset String :=
  ((p.drop 1).dropLast).toFinset

/-- `calculate_path_similarity`: weighted Jaccard, movies 70 percent,
intermediate actors 30 percent; the Jaccard of two empty sets is 0. -/
def calculate_path_similarity (g : ActorGraph) (p q : List String) : Rat :=
  let m1 := pathTopMovieIds g p
  let m2 := pathTopMovieIds g q
  let a1 := intermediateActors p
  let a2 := intermediateActors q
  let mj : Rat := if m1 ≠ ∅ ∨ m2 ≠ ∅ then ((m1 ∩ m2).card : Rat) / ((m1 ∪ m2).card : Rat) else 0
  let aj : Rat := if a1 ≠ ∅ ∨ a2 ≠ ∅ then ((a1 ∩ a2).card : Rat) / ((a1 ∪ a2).card : Rat) else 0
  (7 / 10) * mj + (3 / 10) * aj

theorem pyMax_foldl_mem {α : Type} (f : α → Rat) :
    ∀ (xs : List α) (x : α),
      xs.foldl (fun b y => if f b < f y then y else b) x = x ∨
        xs.foldl (fun b y => if f b < f y then y else b) x ∈ xs := by
  intro xs
  induction xs with
  | nil => intro x; left; rfl
  | cons y ys ih =>
    intro x
    simp only [List.foldl_cons]
    rcases ih (if f x < f y then y else x) with hc | hc
    · rw [hc]
      split
      · right; simp
      · left; rfl
    · right; simp [hc]

theorem pyMax_mem {α : Type} {l : List α} {f : α → Rat} {c : α}
    (h : pyMax l f = some c) : c ∈ l := by
  match l, h with
  | x :: xs, h =>
    have hc : xs.foldl (fun b y => if f b < f y then y else b) x = c := by
      simpa [pyMax] using h
    rcases pyMax_foldl_mem f xs x with h1 | h1
    · rw [hc] at h1; simp [← h1]
    · rw [hc] at h1; simp [h1]

/-- The greedy `while` loop of `select_diverse_paths`: while fewer than
`max_paths` are selected and candidates remain, move over the candidate
maximizing the minimum similarity to the selected set (the source's
literal behavior).  The `none` branch is unreachable (`remaining ≠ []`). -/
def greedyLoop (g : ActorGraph) (max_paths : Int)
    (selected remaining : List (List String)) : List (List String) :=
  if h : (selected.length : Int) < max_paths ∧ remaining ≠ [] then
    match hm : pyMax remaining
        (fun c => pyMinQ (selected.map fun sp => calculate_path_similarity g c sp)) with
    | some c => greedyLoop g max_paths (selected ++ [c]) (remaining.erase c)
    | none => selected
  else selected
termination_by remaining.length
decreasing_by
  have hmem := pyMax_mem hm
  rw [List.length_erase_of_mem hmem]
  have : remaining.length ≠ 0 := by
    simpa [List.length_eq_zero] using h.2
  omega

/-- `select_diverse_paths`: return everything when the candidate list
fits; otherwise seed with the most popular path and grow greedily.
The `none` branch is dead code (Python `max` would raise there). -/
def select_diverse_paths (g : ActorGraph) (all_paths : List (List String))
    (max_paths : Int) : List (List String) :=
  if (all_paths.length : Int) ≤ max_paths then all_paths
  else
    match pyMax all_paths (pathPopularity g) with
    | none => []
    | some best =>
      greedyLoop g max_paths [best] (all_paths.filter fun p => p ≠ best)

/-- The `for path in all_shortest_paths` scan of `get_optimal_path`:
keep the strictly better scoring path, so the first path attaining the
maximum wins. -/
def bestPathLoop (g : ActorGraph) :
    List (List String) → Rat → Option (List String) → Rat × Option (List String)
  | [], bq, bp => (bq, bp)
  | p :: rest, bq, bp =>
    let tp := pathPopularity g p
    if bq < tp then bestPathLoop g rest tp (some p) else bestPathLoop g rest bq bp

/-- The path selection of the `optimal-path` endpoint, given the list
`all_shortest_paths` produced by the graph library: a single candidate
is returned as is; otherwise the popularity scan runs from
`best_popularity = -1`, and a falsy `best_path` (Python `None` or `[]`)
falls back to the first candidate. -/
def getOptimalPathActors (g : ActorGraph)
    (all_shortest_paths : List (List String)) : List String :=
  if all_shortest_paths.length = 1 then all_shortest_paths.headD []
  else
    match (bestPathLoop g all_shortest_paths (-1) none).2 with
    | some bp => if bp.isEmpty then all_shortest_paths.headD [] else bp
    | none => all_shortest_paths.headD []

/-- The path selection of the `optimal-paths` endpoint: the response
holds one entry per selected path, so its `count` equals the length of
this list. -/
def getOptimalPathsSelected (g : ActorGraph)
    (all_paths : List (List String)) (max_paths : Int) : List (List String) :=
  select_diverse_paths g all_paths max_paths

/-- `a :: ... :: b` is a walk in the graph: consecutive nodes joined by
an edge. -/
def chainB (g : ActorGraph) : List String → Bool
  | [] => true
  | [_] => true
  | a :: b :: rest => has_edge g a b && chainB g (b :: rest)

/-- `p` is a path from `s` to `t` in `g` (hop count = `p.length`). -/
def isPathB (g : ActorGraph) (s t : String) (p : List String) : Bool :=
  (p.head? == some s) && (p.getLast? == some t) && chainB g p

/-! ### Daily puzzle selector (daily_puzzle.py)

Calendar dates (`YYYYMMDD` strings compared lexicographically, which is
chronological order) are modelled as natural day numbers; the puzzle
key, which doubles as the stored `used_date`, is therefore a `Nat` too.
`random.sample(population, 2)` after `random.seed(seed)` is a
deterministic function of the seed, the position of the call in the
call sequence, and the population; it is passed in as an explicit
`Sampler` argument.  `_save_state` is disk I/O and is omitted: the
in-memory state alone answers later calls. -/

/-- Deterministic model of seeded `random.sample(pop, 2)`: arguments
are the seed, the index of the call since seeding, and the population. -/
abbrev Sampler : Type := Nat → Nat → List String → String × String

/-- A stored `puzzles[puzzle_id]` record. -/
structure PuzzleEntry where
  start_actor : String
  target_actor : String
  generated_at : Nat := 0
  exclusion_days : Nat := 0
  fallback : Bool := false
deriving DecidableEq

/-- The persisted selector state. -/
structure DailyState where
  puzzles : List (Nat × PuzzleEntry)
  recent_actors : List (String × Nat)
deriving DecidableEq

/-- Python dict assignment `d[k] = v` on an insertion-ordered map:
overwrite in place when the key exists, else append. -/
def updateAssoc {κ β : Type} [BEq κ] (l : List (κ × β)) (k : κ) (v : β) :
    List (κ × β) :=
  if l.any (fun e => e.1 == k) then
    l.map fun e => if e.1 == k then (k, v) else e
  else l ++ [(k, v)]

/-- `puzzle_id in state["puzzles"]` / its lookup. -/
def lookupPuzzle (st : DailyState) (pid : Nat) : Option PuzzleEntry :=
  (st.puzzles.find? fun e => e.1 == pid).map (·.2)

/-- The starting pool: nodes flagged `in_starting_pool` (default
false), in node insertion order. -/
def startingPool (g : ActorGraph) : List String :=
  (g.nodes.filter fun e => e.2.in_starting_pool).map (·.1)

/-- `_get_available_actors`: starting-pool actors not used on or after
`today - exclude_days`. -/
def availableActors (g : ActorGraph) (st : DailyState) (today exclude_days : Nat) :
    List String :=
  let cutoff := today - exclude_days
  let recent := (st.recent_actors.filter fun e => decide (cutoff ≤ e.2)).map (·.1)
  (startingPool g).filter fun a => !(recent.contains a)

/-- `_is_valid_pair`: distinct and not directly connected. -/
def isValidPair (g : ActorGraph) (a b : String) : Bool :=
  if a = b then false
  else if has_edge g a b then false
  else true

/-- `_cleanup_old_actors`: keep `recent_actors` entries with
`used_date ≥ cutoff`. -/
def cleanupOldActors (st : DailyState) (cutoff : Nat) : DailyState :=
  { st with recent_actors := st.recent_actors.filter fun e => decide (cutoff ≤ e.2) }

/-- The `for _ in range(100)` sampling loop for one exclusion window.
Returns the first valid pair, threading the sampler call index. -/
def tryAttempts (g : ActorGraph) (samp : Sampler) (seed k fuel : Nat)
    (available : List String) : Option (String × String) × Nat :=
  match fuel with
  | 0 => (none, k)
  | fuel + 1 =>
    let p := samp seed k available
    if isValidPair g p.1 p.2 then (some p, k + 1)
    else tryAttempts g samp seed (k + 1) fuel available

/-- The `for exclusion_days in [20, 15, 10, 0]` loop: windows whose
pool is too small are skipped without consuming randomness. -/
def tryWindows (g : ActorGraph) (st : DailyState) (today : Nat) (samp : Sampler)
    (seed k : Nat) : List Nat → Option ((String × String) × Nat) × Nat
  | [] => (none, k)
  | d :: ds =>
    let avail := availableActors g st today d
    if avail.length < 2 then tryWindows g st today samp seed k ds
    else
      match tryAttempts g samp seed k 100 avail with
      | (some p, k2) => (some (p, d), k2)
      | (none, k2) => tryWindows g st today samp seed k2 ds

/-- Record an accepted puzzle: store it under its key and mark both
actors used on `puzzle_id`. -/
def recordPuzzle (st : DailyState) (pid : Nat) (s t : String) (today d : Nat)
    (fb : Bool) : DailyState :=
  let entry : PuzzleEntry :=
    { start_actor := s, target_actor := t, generated_at := today,
      exclusion_days := d, fallback := fb }
  let st1 := { st with puzzles := updateAssoc st.puzzles pid entry }
  { st1 with recent_actors := updateAssoc (updateAssoc st1.recent_actors s pid) t pid }

/-- `DailyPuzzleManager.get_daily_puzzle`: cached lookup, else seeded
generation over shrinking exclusion windows, else unconditional
fallback; every generated pair is recorded in state before returning.
The main branch garbage-collects `recent_actors` older than 25 days;
the fallback branch does not (as in the source). -/
def get_daily_puzzle (g : ActorGraph) (samp : Sampler) (st : DailyState)
    (pid today : Nat) : (String × String) × DailyState :=
  match lookupPuzzle st pid with
  | some e => ((e.start_actor, e.target_actor), st)
  | none =>
    let seed := pid
    let w := tryWindows g st today samp seed 0 [20, 15, 10, 0]
    match w.1 with
    | some (p, d) =>
      (p, cleanupOldActors (recordPuzzle st pid p.1 p.2 today d false) (today - 25))
    | none =>
      let p := samp seed w.2 (startingPool g)
      (p, recordPuzzle st pid p.1 p.2 today 0 true)

/-! ### Game creation (main.py `create_game`) -/

/-- A create-game request body; both fields optional. -/
structure CreateGameRequest where
  startActorId : Option String := none
  targetActorId : Option String := none
deriving DecidableEq

/-- Python truthiness of an `Optional[str]`. -/
def truthy (o : Option String) : Bool :=
  match o with
  | none => false
  | some s => !s.isEmpty

/-- The `for _ in range(100)` / `else` random-pair search of
`create_game`: accept the first sampled pair that is not directly
connected; after 100 failures sample once more unconditionally.
`samp2 i` models the i-th `random.sample(starting_actors, 2)` call. -/
def choosePairAux (g : ActorGraph) (samp2 : Nat → String × String) :
    Nat → Nat → String × String
  | _, 0 => samp2 100
  | i, fuel + 1 =>
    let p := samp2 i
    if has_edge g p.1 p.2 then choosePairAux g samp2 (i + 1) fuel else p

def choosePair (g : ActorGraph) (samp2 : Nat → String × String) : String × String :=
  choosePairAux g samp2 0 100

/-- Membership test `actor_id in GRAPH.nodes()`. -/
def nodeMem (g : ActorGraph) (a : String) : Bool :=
  g.nodes.any fun e => e.1 = a

/-- The pair-selection logic of `create_game`: both ids truthy → use
them after validating membership; otherwise ignore whatever was
supplied and pick a random pair from the starting pool (500 error when
the pool has fewer than two actors). -/
def createGamePair (g : ActorGraph) (req : CreateGameRequest)
    (samp2 : Nat → String × String) : Except String (String × String) :=
  match req.startActorId, req.targetActorId with
  | some s, some t =>
    if !s.isEmpty && !t.isEmpty then
      if !(nodeMem g s) then Except.error "Start actor not found"
      else if !(nodeMem g t) then Except.error "Target actor not found"
      else Except.ok (s, t)
    else
      if (startingPool g).length < 2 then Except.error "Not enough starting actors"
      else Except.ok (choosePair g samp2)
  | _, _ =>
    if (startingPool g).length < 2 then Except.error "Not enough starting actors"
    else Except.ok (choosePair g samp2)

/-! ### Operation sequences over a game session -/

/-- An externally triggered mutation of one game session (the claims
about counters quantify over sequences of these). -/
inductive GameOp where
  | guessOp (movie_id : Option Int) (actor_name : Option String)
  | giveUpOp
deriving DecidableEq

def applyOp (cfg : GameConfig) (s : GameState) : GameOp → GameState
  | GameOp.guessOp m a => (guess cfg s m a).2
  | GameOp.giveUpOp => (give_up s).2

def runOps (cfg : GameConfig) (s : GameState) (ops : List GameOp) : GameState :=
  ops.foldl (applyOp cfg) s

/-! ### Concrete fixtures used by witnesses and counterexamples -/

/-- A movie stored on the only edge of the example graph. -/
def exMovie : Movie := { id := 1, title := "M1", popularity := 5 }

/-- Two connected actors, both in the starting pool. -/
def exGraph : ActorGraph :=
  { nodes := [("actor_1", { name := "A", in_playable_graph := true, in_starting_pool := true }),
              ("actor_2", { name := "B", in_playable_graph := true, in_starting_pool := true })],
    edges := [("actor_1", "actor_2", [exMovie])] }

/-- An index that also knows movie 99, in which both actors appeared
although it is absent from the edge's movie list. -/
def exIndex : ActorMovieIndex :=
  { movies := [(99, { title := "M99", popularity := 9 }),
               (1, { title := "M1", popularity := 5 })],
    actor_movies := [(1, [{ movie_id := 99 }, { movie_id := 1 }]),
                     (2, [{ movie_id := 99 }, { movie_id := 1 }])] }

def exCfg : GameConfig :=
  { graph := exGraph, actor_movie_index := some exIndex,
    resolve_actor := fun n => if n = "B" then ["actor_2"] else [] }

def exInit : GameState := initGame "actor_1" "actor_2" 3

/-- A reachable state with a pending movie and no moves made yet:
the result of a successful movie-only guess on a fresh game. -/
def exPending : GameState := (guess exCfg exInit (some 1) none).2

/-! ## Claim C1 — swap-actors -/

/-- C1 counterexample: on a session with no moves but a pending movie
(reachable by one successful movie-only guess), the swap succeeds yet
the pending movie is NOT cleared, contradicting the claim that swap
"clears any pending movie". -/
theorem claim1_counterexample :
    exPending.movies_used = [] ∧
    exPending.pending_movie_id = some 1 ∧
    (swapActors exPending).map GameState.pending_movie_id = Except.ok (some 1) := by
  refine ⟨by rfl, by rfl, by rfl⟩

/-- C1 (amended): for a session with `movies_used = []`, swap exchanges
start and target, sets current to the new start, resets the visited
path to `[new_start]`, and leaves every other field — including the
pending movie and both counters — unchanged; with `movies_used ≠ []` it
fails with the 400 validation error and changes nothing. -/
theorem claim1_theorem (s : GameState) :
    (s.movies_used = [] →
      swapActors s = Except.ok { s with start := s.target, target := s.start,
                                        current := s.target, path := [s.target] }) ∧
    (s.movies_used ≠ [] →
      swapActors s = Except.error "Cannot swap actors after making a move") := by
  constructor
  · intro h
    simp [swapActors, h]
  · intro h
    have hp : 0 < s.movies_used.length := List.length_pos.mpr h
    simp [swapActors, hp]

/-- C1 witness: the amended theorem applied to a fresh game (swap
succeeds) and to a game with one recorded move (400 error). -/
theorem claim1_witness :
    swapActors exInit =
      Except.ok { exInit with start := exInit.target, target := exInit.start,
                              current := exInit.target, path := [exInit.target] } ∧
    swapActors { exInit with movies_used := [exMovie] } =
      Except.error "Cannot swap actors after making a move" :=
  ⟨(claim1_theorem exInit).1 rfl,
   (claim1_theorem { exInit with movies_used := [exMovie] }).2 (by simp)⟩

/-! ## Claim C3 — registry eviction on create -/

/-- C3 counterexample: a registry already holding `MAX_GAMES = 5000`
fresh (un-expired) entries grows to 5001 entries on create — the code
performs no capacity eviction, refuting "fewer than MAX_GAMES + 1". -/
theorem claim3_counterexample :
    ¬((createGameRegistryStep 0 "fresh"
        ((List.range 5000).map fun i => (toString i, (0 : Int)))).length
          < MAX_GAMES + 1) := by
  have hclean : cleanupExpiredGames 0 ((List.range 5000).map fun i => (toString i, (0 : Int)))
      = (List.range 5000).map fun i => (toString i, (0 : Int)) := by
    apply List.filter_eq_self.mpr
    intro a ha
    rcases List.mem_map.mp ha with ⟨i, _, rfl⟩
    rfl
  have hlen : (createGameRegistryStep 0 "fresh"
      ((List.range 5000).map fun i => (toString i, (0 : Int)))).length = 5001 := by
    simp [createGameRegistryStep, hclean]
  rw [hlen]
  decide

/-- C3 (amended): each create first evicts exactly the entries whose
age exceeds `TTL_SECONDS` and then inserts the fresh entry; no
capacity-based eviction against `MAX_GAMES` is performed, so the
registry after a create holds (number of unexpired entries) + 1 — a
value that can reach `MAX_GAMES + 1` or more. -/
theorem claim3_theorem (now : Int) (game_id : String) (games : List (String × Int)) :
    (createGameRegistryStep now game_id games).length
      = (cleanupExpiredGames now games).length + 1 ∧
    ∀ e ∈ createGameRegistryStep now game_id games,
      ¬(GAME_TTL_SECONDS < now - e.2) := by
  constructor
  · simp [createGameRegistryStep]
  · intro e he
    rcases List.mem_append.mp he with h | h
    · have hf := (List.mem_filter.mp h).2
      simpa using hf
    · simp only [List.mem_singleton] at h
      subst h
      simp [GAME_TTL_SECONDS]

/-! ## Claim C4 — total_guesses counting -/

theorem incIncorrect_total (s : GameState) :
    (incIncorrect s).total_guesses = s.total_guesses := by
  unfold incIncorrect
  dsimp only
  split <;> rfl

theorem guessMovieOnly_total (cfg : GameConfig) (s : GameState) (mid : Int) :
    (guessMovieOnly cfg s mid).2.total_guesses = s.total_guesses + 1 := by
  unfold guessMovieOnly
  dsimp only
  cases cfg.actor_movie_index with
  | none => rfl
  | some i =>
    dsimp only
    cases lookupIndexMovie i mid with
    | none => simp [incIncorrect_total]
    | some md =>
      dsimp only
      cases parseTmdbId s.current with
      | none => rfl
      | some ca =>
        by_cases hm : actorHasMovie i ca mid
        · simp [hm]
        · simp [hm, incIncorrect_total]

theorem guessActorPending_total (cfg : GameConfig) (s : GameState) (pid : Int)
    (name : String) :
    (guessActorPending cfg s pid name).2.total_guesses = s.total_guesses + 1 := by
  unfold guessActorPending
  dsimp only
  by_cases he : (cfg.resolve_actor name).isEmpty
  · simp [he, incIncorrect_total]
  · simp only [he, Bool.false_eq_true, if_false]
    cases pick_movie_and_actor cfg.graph s.current pid (cfg.resolve_actor name)
        cfg.actor_movie_index with
    | none => simp [incIncorrect_total]
    | some r =>
      obtain ⟨m, next⟩ := r
      dsimp only
      by_cases hw : next = s.target <;> simp [hw]

theorem guessBoth_total (cfg : GameConfig) (s : GameState) (mid : Int)
    (name : String) :
    (guessBoth cfg s mid name).2.total_guesses = s.total_guesses + 1 := by
  unfold guessBoth
  dsimp only
  by_cases he : (cfg.resolve_actor name).isEmpty
  · simp [he, incIncorrect_total]
  · simp only [he, Bool.false_eq_true, if_false]
    cases pick_movie_and_actor cfg.graph s.current mid (cfg.resolve_actor name)
        cfg.actor_movie_index with
    | none => simp [incIncorrect_total]
    | some r =>
      obtain ⟨m, next⟩ := r
      dsimp only
      by_cases hw : next = s.target <;> simp [hw]

/-- C4 counterexample: a fresh (non-terminal) game and the "neither"
argument pattern: `total_guesses` is unchanged, refuting "strictly
incremented by exactly one for every argument pattern". -/
theorem claim4_counterexample :
    exInit.completed = false ∧
    (guess exCfg exInit none none).2.total_guesses = exInit.total_guesses := by
  refine ⟨rfl, rfl⟩

/-- C4 (amended): on a non-terminal session, `total_guesses` increases
by exactly one for a movie-only guess, a both-arguments guess, and an
actor-only guess with a pending movie; it is left unchanged by the
"neither" pattern and by an actor-only guess without a pending movie. -/
theorem claim4_theorem (cfg : GameConfig) (s : GameState) (mid : Int) (name : String)
    (h : s.completed = false) :
    (guess cfg s (some mid) none).2.total_guesses = s.total_guesses + 1 ∧
    (guess cfg s (some mid) (some name)).2.total_guesses = s.total_guesses + 1 ∧
    (∀ pid, s.pending_movie_id = some pid →
      (guess cfg s none (some name)).2.total_guesses = s.total_guesses + 1) ∧
    (s.pending_movie_id = none →
      (guess cfg s none (some name)).2.total_guesses = s.total_guesses) ∧
    (guess cfg s none none).2.total_guesses = s.total_guesses := by
  refine ⟨?_, ?_, ?_, ?_, ?_⟩
  · simp [guess, h, guessMovieOnly_total]
  · simp [guess, h, guessBoth_total]
  · intro pid hp
    simp [guess, h, hp, guessActorPending_total]
  · intro hp
    simp [guess, h, hp]
  · simp [guess, h]

/-! ## Claim C9 — movie-only guess with a pending movie -/

theorem guessMovieOnly_ignores_pending (cfg : GameConfig) (s : GameState) (mid : Int) :
    (guessMovieOnly cfg s mid).1
      = (guessMovieOnly cfg
          { s with pending_movie_id := none, pending_movie_dict := none } mid).1 ∧
    ((guessMovieOnly cfg s mid).1 = true →
      (guessMovieOnly cfg s mid).2
        = (guessMovieOnly cfg
            { s with pending_movie_id := none, pending_movie_dict := none } mid).2) := by
  unfold guessMovieOnly
  dsimp only
  cases cfg.actor_movie_index with
  | none => exact ⟨rfl, fun h => absurd (show false = true from h) Bool.false_ne_true⟩
  | some i =>
    dsimp only
    cases lookupIndexMovie i mid with
    | none => exact ⟨rfl, fun h => absurd (show false = true from h) Bool.false_ne_true⟩
    | some md =>
      dsimp only
      cases parseTmdbId s.current with
      | none => exact ⟨rfl, fun h => absurd (show false = true from h) Bool.false_ne_true⟩
      | some ca =>
        by_cases hm : actorHasMovie i ca mid
        · simp [hm]
        · simp [hm]

theorem guessMovieOnly_success_pending (cfg : GameConfig) (s : GameState) (mid : Int) :
    (guessMovieOnly cfg s mid).1 = true →
    (guessMovieOnly cfg s mid).2.pending_movie_id = some mid := by
  unfold guessMovieOnly
  dsimp only
  cases cfg.actor_movie_index with
  | none => exact fun h => absurd (show false = true from h) Bool.false_ne_true
  | some i =>
    dsimp only
    cases lookupIndexMovie i mid with
    | none => exact fun h => absurd (show false = true from h) Bool.false_ne_true
    | some md =>
      dsimp only
      cases parseTmdbId s.current with
      | none => exact fun h => absurd (show false = true from h) Bool.false_ne_true
      | some ca =>
        by_cases hm : actorHasMovie i ca mid
        · simp [hm]
        · simp [hm]

/-- C9: on a non-terminal session that already holds a pending movie, a
movie-only guess is dispatched to the first-step movie validation
exactly as if no movie were pending: the success flag agrees with the
pending-free run, on success the whole resulting state agrees (so the
new movie silently replaces the old pending one), `total_guesses` is
incremented, and a successful guess leaves the new movie pending. -/
theorem claim9_theorem (cfg : GameConfig) (s : GameState) (mid pid : Int)
    (hc : s.completed = false) (hp : s.pending_movie_id = some pid) :
    (guess cfg s (some mid) none).1
      = (guess cfg { s with pending_movie_id := none, pending_movie_dict := none }
          (some mid) none).1 ∧
    ((guess cfg s (some mid) none).1 = true →
      (guess cfg s (some mid) none).2
        = (guess cfg { s with pending_movie_id := none, pending_movie_dict := none }
            (some mid) none).2) ∧
    (guess cfg s (some mid) none).2.total_guesses = s.total_guesses + 1 ∧
    ((guess cfg s (some mid) none).1 = true →
      (guess cfg s (some mid) none).2.pending_movie_id = some mid) := by
  have hgd : guess cfg s (some mid) none = guessMovieOnly cfg s mid := by
    simp [guess, hc]
  have hgd0 : guess cfg { s with pending_movie_id := none, pending_movie_dict := none }
      (some mid) none
      = guessMovieOnly cfg
          { s with pending_movie_id := none, pending_movie_dict := none } mid := by
    simp [guess, hc]
  rw [hgd, hgd0]
  exact ⟨(guessMovieOnly_ignores_pending cfg s mid).1,
         (guessMovieOnly_ignores_pending cfg s mid).2,
         guessMovieOnly_total cfg s mid,
         guessMovieOnly_success_pending cfg s mid⟩

/-- C9 witness: the theorem at the reachable pending state (movie 1
pending), re-guessing movie 99. -/
theorem claim9_witness :
    (guess exCfg exPending (some 99) none).1
      = (guess exCfg { exPending with pending_movie_id := none, pending_movie_dict := none }
          (some 99) none).1 ∧
    ((guess exCfg exPending (some 99) none).1 = true →
      (guess exCfg exPending (some 99) none).2
        = (guess exCfg { exPending with pending_movie_id := none, pending_movie_dict := none }
            (some 99) none).2) ∧
    (guess exCfg exPending (some 99) none).2.total_guesses = exPending.total_guesses + 1 ∧
    ((guess exCfg exPending (some 99) none).1 = true →
      (guess exCfg exPending (some 99) none).2.pending_movie_id = some 99) :=
  claim9_theorem exCfg exPending 99 1 (by decide) (by decide)

/-! ## Claim C2 — valid moves follow graph edges -/

theorem validate_some_full (i : ActorMovieIndex) (cur cand : String) (mid : Int)
    (m : Movie) (a : String)
    (h : validate_with_comprehensive_index cur cand mid i = some (m, a)) :
    a = cand ∧ m.id = mid ∧
    ∃ ca cb, parseTmdbId cur = some ca ∧ parseTmdbId cand = some cb ∧
      actorHasMovie i ca mid = true ∧ actorHasMovie i cb mid = true := by
  unfold validate_with_comprehensive_index at h
  cases hca : parseTmdbId cur with
  | none => rw [hca] at h; cases h
  | some ca =>
    cases hcb : parseTmdbId cand with
    | none => rw [hca, hcb] at h; cases h
    | some cb =>
      rw [hca, hcb] at h
      dsimp only at h
      cases hlm : lookupIndexMovie i mid with
      | none => rw [hlm] at h; cases h
      | some md =>
        rw [hlm] at h
        dsimp only at h
        by_cases hb : (actorHasMovie i ca mid && actorHasMovie i cb mid) = true
        · rw [if_pos hb] at h
          simp only [Option.some.injEq, Prod.mk.injEq] at h
          obtain ⟨hm, hcand⟩ := h
          obtain ⟨h1, h2⟩ : actorHasMovie i ca mid = true ∧ actorHasMovie i cb mid = true := by
            simpa [Bool.and_eq_true] using hb
          subst hcand
          subst hm
          exact ⟨rfl, rfl, ca, cb, rfl, rfl, h1, h2⟩
        · rw [if_neg hb] at h; cases h

theorem pick_some_char (g : ActorGraph) (current : String) (mid : Int)
    (idx : Option ActorMovieIndex) :
    ∀ (cands : List String) (m : Movie) (a : String),
      pick_movie_and_actor g current mid cands idx = some (m, a) →
      has_edge g current a = true ∧
      ((∃ i, idx = some i ∧
          validate_with_comprehensive_index current a mid i = some (m, a)) ∨
        (m ∈ get_movies_between_actors g current a ∧ m.id = mid)) := by
  intro cands
  induction cands with
  | nil => intro m a h; cases h
  | cons c rest ih =>
    intro m a h
    simp only [pick_movie_and_actor] at h
    by_cases hedge : has_edge g current c
    · rw [if_pos hedge] at h
      cases hidx : idx with
      | none =>
        subst hidx
        dsimp only at h
        cases hf : (get_movies_between_actors g current c).find?
            (fun mv => mv.id == mid) with
        | none => rw [hf] at h; exact ih m a h
        | some m0 =>
          rw [hf] at h
          simp only [Option.some.injEq, Prod.mk.injEq] at h
          obtain ⟨hm, hc⟩ := h
          subst hc
          subst hm
          refine ⟨hedge, Or.inr ⟨List.mem_of_find?_eq_some hf, ?_⟩⟩
          have hp := List.find?_some hf
          exact eq_of_beq hp
      | some i =>
        subst hidx
        dsimp only at h
        cases hv : validate_with_comprehensive_index current c mid i with
        | some r =>
          rw [hv] at h
          simp only [Option.some.injEq] at h
          subst h
          obtain ⟨hac, _, _⟩ := validate_some_full i current c mid m a hv
          subst hac
          exact ⟨hedge, Or.inl ⟨i, rfl, hv⟩⟩
        | none =>
          rw [hv] at h
          dsimp only at h
          cases hf : (get_movies_between_actors g current c).find?
              (fun mv => mv.id == mid) with
          | none => rw [hf] at h; exact ih m a h
          | some m0 =>
            rw [hf] at h
            simp only [Option.some.injEq, Prod.mk.injEq] at h
            obtain ⟨hm, hc⟩ := h
            subst hc
            subst hm
            refine ⟨hedge, Or.inr ⟨List.mem_of_find?_eq_some hf, ?_⟩⟩
            have hp := List.find?_some hf
            exact eq_of_beq hp
    · rw [if_neg hedge] at h
      exact ih m a h

theorem incIncorrect_movies (s : GameState) :
    (incIncorrect s).movies_used = s.movies_used := by
  unfold incIncorrect
  dsimp only
  split <;> rfl

theorem guessMovieOnly_movies (cfg : GameConfig) (s : GameState) (mid : Int) :
    (guessMovieOnly cfg s mid).2.movies_used = s.movies_used := by
  unfold guessMovieOnly
  dsimp only
  cases cfg.actor_movie_index with
  | none => rfl
  | some i =>
    dsimp only
    cases lookupIndexMovie i mid with
    | none => simp [incIncorrect_movies]
    | some md =>
      dsimp only
      cases parseTmdbId s.current with
      | none => rfl
      | some ca =>
        by_cases hm : actorHasMovie i ca mid
        · simp [hm]
        · simp [hm, incIncorrect_movies]

theorem guessActorPending_char (cfg : GameConfig) (s : GameState) (pid : Int)
    (name : String) :
    (guessActorPending cfg s pid name).1 = true →
    ∃ m next, pick_movie_and_actor cfg.graph s.current pid (cfg.resolve_actor name)
        cfg.actor_movie_index = some (m, next) ∧
      (guessActorPending cfg s pid name).2.current = next ∧
      (guessActorPending cfg s pid name).2.movies_used = s.movies_used ++ [m] := by
  unfold guessActorPending
  dsimp only
  by_cases he : (cfg.resolve_actor name).isEmpty
  · simp [he]
  · simp only [he, Bool.false_eq_true, if_false]
    cases hp : pick_movie_and_actor cfg.graph s.current pid (cfg.resolve_actor name)
        cfg.actor_movie_index with
    | none => exact fun h => absurd (show false = true from h) Bool.false_ne_true
    | some r =>
      obtain ⟨m, next⟩ := r
      dsimp only
      intro _
      by_cases hw : next = s.target
      · refine ⟨m, next, rfl, ?_, ?_⟩ <;> simp [hw]
      · refine ⟨m, next, rfl, ?_, ?_⟩ <;> simp [hw]

theorem guessBoth_char (cfg : GameConfig) (s : GameState) (mid : Int)
    (name : String) :
    (guessBoth cfg s mid name).1 = true →
    ∃ m next, pick_movie_and_actor cfg.graph s.current mid (cfg.resolve_actor name)
        cfg.actor_movie_index = some (m, next) ∧
      (guessBoth cfg s mid name).2.current = next ∧
      (guessBoth cfg s mid name).2.movies_used = s.movies_used ++ [m] := by
  unfold guessBoth
  dsimp only
  by_cases he : (cfg.resolve_actor name).isEmpty
  · simp [he]
  · simp only [he, Bool.false_eq_true, if_false]
    cases hp : pick_movie_and_actor cfg.graph s.current mid (cfg.resolve_actor name)
        cfg.actor_movie_index with
    | none => exact fun h => absurd (show false = true from h) Bool.false_ne_true
    | some r =>
      obtain ⟨m, next⟩ := r
      dsimp only
      intro _
      by_cases hw : next = s.target
      · refine ⟨m, next, rfl, ?_, ?_⟩ <;> simp [hw]
      · refine ⟨m, next, rfl, ?_, ?_⟩ <;> simp [hw]

/-- C2 counterexample: a successful one-shot guess validated through
the comprehensive index appends movie 99 to `movies_used` although the
edge's `movies` list between the two actors is `[1]` — so
`movies_used[-1].id ∈ edge(prev, new).movies` fails. -/
theorem claim2_counterexample :
    (guess exCfg exInit (some 99) (some "B")).1 = true ∧
    ((guess exCfg exInit (some 99) (some "B")).2.movies_used.map Movie.id) = [99] ∧
    (get_movies_between_actors exCfg.graph exInit.current
        (guess exCfg exInit (some 99) (some "B")).2.current).map Movie.id = [1] ∧
    ¬(99 ∈ (get_movies_between_actors exCfg.graph exInit.current
        (guess exCfg exInit (some 99) (some "B")).2.current).map Movie.id) := by
  decide

/-- C2 (amended): for every successful guess that records a move, the
graph has an edge between the previous and the new current actor, and
the appended movie connector either appears in that edge's `movies`
list (fallback validation) or is listed in both actors' filmographies
of the comprehensive actor-movie index (index validation) — membership
in the edge list alone is not guaranteed. -/
theorem claim2_theorem (cfg : GameConfig) (s : GameState) (omid : Option Int)
    (oname : Option String)
    (hok : (guess cfg s omid oname).1 = true)
    (hgrew : (guess cfg s omid oname).2.movies_used.length
      = s.movies_used.length + 1) :
    has_edge cfg.graph s.current (guess cfg s omid oname).2.current = true ∧
    ∃ m, (guess cfg s omid oname).2.movies_used = s.movies_used ++ [m] ∧
      (m.id ∈ (get_movies_between_actors cfg.graph s.current
          (guess cfg s omid oname).2.current).map Movie.id ∨
        ∃ i, cfg.actor_movie_index = some i ∧
          ∃ ca cb, parseTmdbId s.current = some ca ∧
            parseTmdbId (guess cfg s omid oname).2.current = some cb ∧
            actorHasMovie i ca m.id = true ∧ actorHasMovie i cb m.id = true) := by
  by_cases hc : s.completed = true
  · simp [guess, hc] at hok
  · have hcf : s.completed = false := Bool.eq_false_iff.mpr hc
    cases omid with
    | none =>
      cases oname with
      | none => simp [guess, hcf] at hok
      | some name =>
        cases hpend : s.pending_movie_id with
        | none => simp [guess, hcf, hpend] at hok
        | some pid =>
          have hg : guess cfg s none (some name) = guessActorPending cfg s pid name := by
            simp [guess, hcf, hpend]
          rw [hg] at hok ⊢
          obtain ⟨m, next, hp, hcur, hmov⟩ := guessActorPending_char cfg s pid name hok
          rw [hcur, hmov]
          obtain ⟨hedge, hdisj⟩ := pick_some_char cfg.graph s.current pid
            cfg.actor_movie_index (cfg.resolve_actor name) m next hp
          refine ⟨hedge, m, rfl, ?_⟩
          rcases hdisj with ⟨i, hi, hv⟩ | ⟨hmem, hid⟩
          · obtain ⟨_, hid, ca, cb, hca, hcb, h1, h2⟩ :=
              validate_some_full i s.current next pid m next hv
            exact Or.inr ⟨i, hi, ca, cb, hca, hcb,
              by rw [hid]; exact h1, by rw [hid]; exact h2⟩
          · exact Or.inl (List.mem_map.mpr ⟨m, hmem, by rw [hid]⟩)
    | some mid =>
      cases oname with
      | none =>
        have hg : guess cfg s (some mid) none = guessMovieOnly cfg s mid := by
          simp [guess, hcf]
        rw [hg] at hgrew
        rw [guessMovieOnly_movies] at hgrew
        omega
      | some name =>
        have hg : guess cfg s (some mid) (some name) = guessBoth cfg s mid name := by
          simp [guess, hcf]
        rw [hg] at hok ⊢
        obtain ⟨m, next, hp, hcur, hmov⟩ := guessBoth_char cfg s mid name hok
        rw [hcur, hmov]
        obtain ⟨hedge, hdisj⟩ := pick_some_char cfg.graph s.current mid
          cfg.actor_movie_index (cfg.resolve_actor name) m next hp
        refine ⟨hedge, m, rfl, ?_⟩
        rcases hdisj with ⟨i, hi, hv⟩ | ⟨hmem, hid⟩
        · obtain ⟨_, hid, ca, cb, hca, hcb, h1, h2⟩ :=
            validate_some_full i s.current next mid m next hv
          exact Or.inr ⟨i, hi, ca, cb, hca, hcb,
            by rw [hid]; exact h1, by rw [hid]; exact h2⟩
        · exact Or.inl (List.mem_map.mpr ⟨m, hmem, by rw [hid]⟩)

/-- C2 witness: the amended theorem at the concrete one-shot guess that
moves from actor_1 to actor_2 via index-validated movie 99. -/
theorem claim2_witness :
    has_edge exCfg.graph exInit.current
        (guess exCfg exInit (some 99) (some "B")).2.current = true ∧
    ∃ m, (guess exCfg exInit (some 99) (some "B")).2.movies_used
        = exInit.movies_used ++ [m] ∧
      (m.id ∈ (get_movies_between_actors exCfg.graph exInit.current
          (guess exCfg exInit (some 99) (some "B")).2.current).map Movie.id ∨
        ∃ i, exCfg.actor_movie_index = some i ∧
          ∃ ca cb, parseTmdbId exInit.current = some ca ∧
            parseTmdbId (guess exCfg exInit (some 99) (some "B")).2.current = some cb ∧
            actorHasMovie i ca m.id = true ∧ actorHasMovie i cb m.id = true) :=
  claim2_theorem exCfg exInit (some 99) (some "B") (by decide) (by decide)

/-- C4 witness: the amended theorem at a concrete non-terminal game. -/
theorem claim4_witness :
    (guess exCfg exInit (some 7) none).2.total_guesses = exInit.total_guesses + 1 ∧
    (guess exCfg exInit (some 7) (some "B")).2.total_guesses = exInit.total_guesses + 1 ∧
    (∀ pid, exInit.pending_movie_id = some pid →
      (guess exCfg exInit none (some "B")).2.total_guesses = exInit.total_guesses + 1) ∧
    (exInit.pending_movie_id = none →
      (guess exCfg exInit none (some "B")).2.total_guesses = exInit.total_guesses) ∧
    (guess exCfg exInit none none).2.total_guesses = exInit.total_guesses :=
  claim4_theorem exCfg exInit 7 "B" rfl

/-! ## Claim C7 — incorrect_guesses never exceeds max_incorrect -/

/-- The inductive invariant: the counter is within bounds, and strictly
below the bound while the game is still running. -/
def InvP (s : GameState) : Prop :=
  s.incorrect_guesses ≤ s.max_incorrect ∧
    (s.completed = false → s.incorrect_guesses < s.max_incorrect)

theorem invP_incIncorrect (s : GameState)
    (h : s.incorrect_guesses < s.max_incorrect) : InvP (incIncorrect s) := by
  unfold incIncorrect InvP
  dsimp only
  split
  next hcond =>
    refine ⟨?_, fun hf => ?_⟩
    · dsimp only
      omega
    · dsimp only at hf
      cases hf
  next hcond =>
    have hc2 : ¬(s.max_incorrect ≤ s.incorrect_guesses + 1) := hcond
    refine ⟨?_, fun _ => ?_⟩ <;> dsimp only <;> omega

theorem invP_guessMovieOnly (cfg : GameConfig) (s : GameState) (mid : Int)
    (hlt : s.incorrect_guesses < s.max_incorrect) :
    InvP (guessMovieOnly cfg s mid).2 := by
  unfold guessMovieOnly
  dsimp only
  cases cfg.actor_movie_index with
  | none => refine ⟨?_, fun _ => ?_⟩ <;> dsimp only <;> omega
  | some i =>
    dsimp only
    cases lookupIndexMovie i mid with
    | none => exact invP_incIncorrect _ (by dsimp only; omega)
    | some md =>
      dsimp only
      cases parseTmdbId s.current with
      | none => refine ⟨?_, fun _ => ?_⟩ <;> dsimp only <;> omega
      | some ca =>
        by_cases hm : actorHasMovie i ca mid
        · simp only [hm, if_pos]
          refine ⟨?_, fun _ => ?_⟩ <;> dsimp only <;> omega
        · simp only [hm, Bool.false_eq_true, if_false]
          exact invP_incIncorrect _ (by dsimp only; omega)

theorem invP_guessActorPending (cfg : GameConfig) (s : GameState) (pid : Int)
    (name : String) (hlt : s.incorrect_guesses < s.max_incorrect) :
    InvP (guessActorPending cfg s pid name).2 := by
  unfold guessActorPending
  dsimp only
  by_cases he : (cfg.resolve_actor name).isEmpty
  · simp only [he, if_pos]
    exact invP_incIncorrect _ (by dsimp only; omega)
  · simp only [he, Bool.false_eq_true, if_false]
    cases pick_movie_and_actor cfg.graph s.current pid (cfg.resolve_actor name)
        cfg.actor_movie_index with
    | none => exact invP_incIncorrect _ (by dsimp only; omega)
    | some r =>
      obtain ⟨m, next⟩ := r
      dsimp only
      by_cases hw : next = s.target
      · rw [if_pos hw]
        refine ⟨?_, fun hf => ?_⟩
        · dsimp only
          omega
        · dsimp only at hf
          cases hf
      · rw [if_neg hw]
        refine ⟨?_, fun _ => ?_⟩ <;> dsimp only <;> omega

theorem invP_guessBoth (cfg : GameConfig) (s : GameState) (mid : Int)
    (name : String) (hlt : s.incorrect_guesses < s.max_incorrect) :
    InvP (guessBoth cfg s mid name).2 := by
  unfold guessBoth
  dsimp only
  by_cases he : (cfg.resolve_actor name).isEmpty
  · simp only [he, if_pos]
    exact invP_incIncorrect _ (by dsimp only; omega)
  · simp only [he, Bool.false_eq_true, if_false]
    cases pick_movie_and_actor cfg.graph s.current mid (cfg.resolve_actor name)
        cfg.actor_movie_index with
    | none => exact invP_incIncorrect _ (by dsimp only; omega)
    | some r =>
      obtain ⟨m, next⟩ := r
      dsimp only
      by_cases hw : next = s.target
      · rw [if_pos hw]
        refine ⟨?_, fun hf => ?_⟩
        · dsimp only
          omega
        · dsimp only at hf
          cases hf
      · rw [if_neg hw]
        refine ⟨?_, fun _ => ?_⟩ <;> dsimp only <;> omega

theorem invP_guess (cfg : GameConfig) (s : GameState) (mid : Option Int)
    (name : Option String) (h : InvP s) : InvP (guess cfg s mid name).2 := by
  by_cases hc : s.completed = true
  · simpa [guess, hc] using h
  · have hcf : s.completed = false := Bool.eq_false_iff.mpr hc
    have hlt : s.incorrect_guesses < s.max_incorrect := h.2 hcf
    cases mid with
    | none =>
      cases name with
      | none => simpa [guess, hcf] using h
      | some nm =>
        cases hpend : s.pending_movie_id with
        | none => simpa [guess, hcf, hpend] using h
        | some pid =>
          have hg : guess cfg s none (some nm) = guessActorPending cfg s pid nm := by
            simp [guess, hcf, hpend]
          rw [hg]
          exact invP_guessActorPending cfg s pid nm hlt
    | some m =>
      cases name with
      | none =>
        have hg : guess cfg s (some m) none = guessMovieOnly cfg s m := by
          simp [guess, hcf]
        rw [hg]
        exact invP_guessMovieOnly cfg s m hlt
      | some nm =>
        have hg : guess cfg s (some m) (some nm) = guessBoth cfg s m nm := by
          simp [guess, hcf]
        rw [hg]
        exact invP_guessBoth cfg s m nm hlt

theorem invP_give_up (s : GameState) (h : InvP s) : InvP (give_up s).2 := by
  unfold give_up
  by_cases hc : s.completed = true
  · simpa [hc] using h
  · rw [if_neg hc]
    refine ⟨?_, fun hf => ?_⟩
    · dsimp only
      exact le_refl _
    · dsimp only at hf
      cases hf

theorem invP_runOps (cfg : GameConfig) (ops : List GameOp) :
    ∀ s : GameState, InvP s → InvP (runOps cfg s ops) := by
  induction ops with
  | nil => intro s h; exact h
  | cons op rest ih =>
    intro s h
    have hstep : InvP (applyOp cfg s op) := by
      cases op with
      | guessOp m a => exact invP_guess cfg s m a h
      | giveUpOp => exact invP_give_up s h
    exact ih (applyOp cfg s op) hstep

/-- C7: starting from a fresh session with `max_incorrect ≥ 1`, after
any sequence of guess and give-up operations the incorrect counter
never exceeds `max_incorrect`, and the moment it equals `max_incorrect`
the game is completed. -/
theorem claim7_theorem (cfg : GameConfig) (start target : String) (maxInc : Nat)
    (ops : List GameOp) (h : 1 ≤ maxInc) :
    (runOps cfg (initGame start target maxInc) ops).incorrect_guesses
        ≤ (runOps cfg (initGame start target maxInc) ops).max_incorrect ∧
    ((runOps cfg (initGame start target maxInc) ops).incorrect_guesses
        = (runOps cfg (initGame start target maxInc) ops).max_incorrect →
      (runOps cfg (initGame start target maxInc) ops).completed = true) := by
  have hinit : InvP (initGame start target maxInc) := by
    constructor
    · exact Nat.zero_le _
    · intro _
      exact h
  have hfin := invP_runOps cfg ops (initGame start target maxInc) hinit
  refine ⟨hfin.1, fun heq => ?_⟩
  cases hcompl : (runOps cfg (initGame start target maxInc) ops).completed with
  | true => rfl
  | false =>
    have := hfin.2 hcompl
    omega

/-- C7 witness: a concrete session (max_incorrect = 1) driven through a
wrong guess followed by a give-up. -/
theorem claim7_witness :
    (runOps exCfg (initGame "actor_1" "actor_2" 1)
        [GameOp.guessOp (some 555) none, GameOp.giveUpOp]).incorrect_guesses
        ≤ (runOps exCfg (initGame "actor_1" "actor_2" 1)
        [GameOp.guessOp (some 555) none, GameOp.giveUpOp]).max_incorrect ∧
    ((runOps exCfg (initGame "actor_1" "actor_2" 1)
        [GameOp.guessOp (some 555) none, GameOp.giveUpOp]).incorrect_guesses
        = (runOps exCfg (initGame "actor_1" "actor_2" 1)
        [GameOp.guessOp (some 555) none, GameOp.giveUpOp]).max_incorrect →
      (runOps exCfg (initGame "actor_1" "actor_2" 1)
        [GameOp.guessOp (some 555) none, GameOp.giveUpOp]).completed = true) :=
  claim7_theorem exCfg "actor_1" "actor_2" 1
    [GameOp.guessOp (some 555) none, GameOp.giveUpOp] (by decide)

/-! ## Claim C6 — daily selector determinism -/

theorem find?_append_of_none {α : Type} {p : α → Bool} {l2 : List α} :
    ∀ l1 : List α, l1.find? p = none → (l1 ++ l2).find? p = l2.find? p := by
  intro l1
  induction l1 with
  | nil => intro _; rfl
  | cons x xs ih =>
    intro h
    rw [List.find?_cons] at h
    cases hpx : p x with
    | true => rw [hpx] at h; cases h
    | false =>
      rw [hpx] at h
      rw [List.cons_append, List.find?_cons, hpx]
      exact ih h

theorem lookupPuzzle_updateAssoc (st : DailyState) (pid : Nat) (e : PuzzleEntry)
    (h : lookupPuzzle st pid = none) :
    (List.find? (fun x => x.1 == pid) (updateAssoc st.puzzles pid e)).map (·.2)
      = some e := by
  unfold lookupPuzzle at h
  have hfind : st.puzzles.find? (fun x => x.1 == pid) = none := by
    cases hf : st.puzzles.find? (fun x => x.1 == pid) with
    | none => rfl
    | some q => rw [hf] at h; cases h
  have hany : st.puzzles.any (fun x => x.1 == pid) = false := by
    cases hany0 : st.puzzles.any (fun x => x.1 == pid) with
    | false => rfl
    | true =>
      obtain ⟨q, hq, hqp⟩ := List.any_eq_true.mp hany0
      have := List.find?_eq_none.mp hfind q hq
      exact absurd hqp this
  unfold updateAssoc
  rw [hany]
  rw [if_neg Bool.false_ne_true]
  rw [find?_append_of_none st.puzzles hfind]
  simp

theorem lookupPuzzle_recordPuzzle (st : DailyState) (pid : Nat) (s t : String)
    (today d : Nat) (fb : Bool) (h : lookupPuzzle st pid = none) :
    lookupPuzzle (recordPuzzle st pid s t today d fb) pid
      = some { start_actor := s, target_actor := t, generated_at := today,
               exclusion_days := d, fallback := fb } := by
  unfold recordPuzzle lookupPuzzle
  dsimp only
  exact lookupPuzzle_updateAssoc st pid _ h

theorem lookupPuzzle_cleanupOldActors (st : DailyState) (c pid : Nat) :
    lookupPuzzle (cleanupOldActors st c) pid = lookupPuzzle st pid := rfl

/-- C6 counterexample: one actor was used on day 100; with the same
puzzle key, the same stored state and the same seeded sampler, a run
at day 105 (the used actor still inside the 20-day exclusion window)
picks a different pair than a run at day 200 (window expired) — so the
selector is not a function of (puzzle key, state) alone. -/
theorem claim6_counterexample :
    (get_daily_puzzle
        { nodes := [("A", { in_starting_pool := true }),
                    ("B", { in_starting_pool := true }),
                    ("C", { in_starting_pool := true })], edges := [] }
        (fun _ _ pop => (pop.headD "", (pop.drop 1).headD ""))
        { puzzles := [], recent_actors := [("A", 100)] } 300 105).1
      ≠ (get_daily_puzzle
        { nodes := [("A", { in_starting_pool := true }),
                    ("B", { in_starting_pool := true }),
                    ("C", { in_starting_pool := true })], edges := [] }
        (fun _ _ pop => (pop.headD "", (pop.drop 1).headD ""))
        { puzzles := [], recent_actors := [("A", 100)] } 300 200).1 := by
  decide

/-- C6 (amended): the selector's fresh pick is a function of the puzzle
key, the stored state AND the current date (through the exclusion-window
cutoffs); the accepted pair is recorded under its key before returning,
so every subsequent call with the same key — at any later date and with
any sampler — returns the identical pair. -/
theorem claim6_theorem (g : ActorGraph) (samp samp2 : Sampler) (st : DailyState)
    (pid today today2 : Nat) :
    (get_daily_puzzle g samp2 (get_daily_puzzle g samp st pid today).2 pid today2).1
      = (get_daily_puzzle g samp st pid today).1 := by
  unfold get_daily_puzzle
  cases hlp : lookupPuzzle st pid with
  | some e => simp [hlp]
  | none =>
    dsimp only
    cases hw : (tryWindows g st today samp pid 0 [20, 15, 10, 0]).1 with
    | some pd =>
      obtain ⟨p, d⟩ := pd
      dsimp only
      rw [lookupPuzzle_cleanupOldActors, lookupPuzzle_recordPuzzle st pid p.1 p.2 today d false hlp]
    | none =>
      dsimp only
      rw [lookupPuzzle_recordPuzzle st pid _ _ today 0 true hlp]

/-! ## Claim C10 — partial actor ids on create are ignored -/

theorem choosePairAux_is_sample (g : ActorGraph) (samp2 : Nat → String × String) :
    ∀ (fuel i : Nat), ∃ j, choosePairAux g samp2 i fuel = samp2 j := by
  intro fuel
  induction fuel with
  | zero => intro i; exact ⟨100, rfl⟩
  | succ n ih =>
    intro i
    unfold choosePairAux
    by_cases hedge : has_edge g (samp2 i).1 (samp2 i).2
    · simpa [hedge] using ih (i + 1)
    · exact ⟨i, by simp [hedge]⟩

/-- C10: when the request does not carry two truthy actor ids
(exactly one supplied, or an empty string for either), whatever was
supplied is silently ignored — the outcome is identical to a request
with neither id — and, for any sampler drawing distinct pairs from a
starting pool of at least two actors, the created game uses a distinct
pair from the starting pool. -/
theorem claim10_theorem (g : ActorGraph) (req : CreateGameRequest)
    (samp2 : Nat → String × String)
    (hreq : truthy req.startActorId = false ∨ truthy req.targetActorId = false)
    (hsamp : ∀ i, (samp2 i).1 ∈ startingPool g ∧ (samp2 i).2 ∈ startingPool g ∧
      (samp2 i).1 ≠ (samp2 i).2)
    (hpool : 2 ≤ (startingPool g).length) :
    createGamePair g req samp2 = createGamePair g {} samp2 ∧
    createGamePair g req samp2 = Except.ok (choosePair g samp2) ∧
    (choosePair g samp2).1 ∈ startingPool g ∧
    (choosePair g samp2).2 ∈ startingPool g ∧
    (choosePair g samp2).1 ≠ (choosePair g samp2).2 := by
  have hnp : ¬((startingPool g).length < 2) := by omega
  have hdefault : createGamePair g {} samp2 = Except.ok (choosePair g samp2) := by
    simp [createGamePair, hnp]
  have hreqeq : createGamePair g req samp2 = Except.ok (choosePair g samp2) := by
    obtain ⟨os, ot⟩ := req
    cases os with
    | none => simp [createGamePair, hnp]
    | some sv =>
      cases ot with
      | none => simp [createGamePair, hnp]
      | some tv =>
        rcases hreq with hf | hf
        · have : sv.isEmpty = true := by
            simpa [truthy] using hf
          simp [createGamePair, this, hnp]
        · have : tv.isEmpty = true := by
            simpa [truthy] using hf
          simp [createGamePair, this, hnp]
  obtain ⟨j, hj⟩ := choosePairAux_is_sample g samp2 100 0
  have hcp : choosePair g samp2 = samp2 j := hj
  refine ⟨hdefault ▸ hreqeq, hreqeq, ?_, ?_, ?_⟩ <;> rw [hcp]
  · exact (hsamp j).1
  · exact (hsamp j).2.1
  · exact (hsamp j).2.2

/-- C10 witness: a request carrying only a start id against the example
graph (both actors are in the starting pool), with a constant sampler. -/
theorem claim10_witness :
    createGamePair exGraph { startActorId := some "actor_1" }
        (fun _ => ("actor_1", "actor_2"))
      = createGamePair exGraph {} (fun _ => ("actor_1", "actor_2")) ∧
    createGamePair exGraph { startActorId := some "actor_1" }
        (fun _ => ("actor_1", "actor_2"))
      = Except.ok (choosePair exGraph (fun _ => ("actor_1", "actor_2"))) ∧
    (choosePair exGraph (fun _ => ("actor_1", "actor_2"))).1 ∈ startingPool exGraph ∧
    (choosePair exGraph (fun _ => ("actor_1", "actor_2"))).2 ∈ startingPool exGraph ∧
    (choosePair exGraph (fun _ => ("actor_1", "actor_2"))).1
      ≠ (choosePair exGraph (fun _ => ("actor_1", "actor_2"))).2 :=
  claim10_theorem exGraph { startActorId := some "actor_1" }
    (fun _ => ("actor_1", "actor_2"))
    (Or.inr rfl)
    (fun _ => ⟨(by decide : "actor_1" ∈ startingPool exGraph),
               (by decide : "actor_2" ∈ startingPool exGraph),
               (by decide : "actor_1" ≠ "actor_2")⟩)
    (by decide)

/-! ## Claim C5 — diverse-path count is not clamped to 3 -/

/-- A diamond graph with four internally disjoint two-hop routes
between A and B. -/
def exDiamond : ActorGraph :=
  { nodes := [],
    edges := [("A", "M1", [{ id := 1, title := "", popularity := 1 }]),
              ("M1", "B", [{ id := 2, title := "", popularity := 2 }]),
              ("A", "M2", [{ id := 3, title := "", popularity := 3 }]),
              ("M2", "B", [{ id := 4, title := "", popularity := 4 }]),
              ("A", "M3", [{ id := 5, title := "", popularity := 5 }]),
              ("M3", "B", [{ id := 6, title := "", popularity := 6 }]),
              ("A", "M4", [{ id := 7, title := "", popularity := 7 }]),
              ("M4", "B", [{ id := 8, title := "", popularity := 8 }])] }

def exPaths4 : List (List String) :=
  [["A", "M1", "B"], ["A", "M2", "B"], ["A", "M3", "B"], ["A", "M4", "B"]]

/-- C5 counterexample: four shortest paths and `max_paths = 4` — the
endpoint returns all four paths, so the count is not clamped to 3. -/
theorem claim5_counterexample :
    (getOptimalPathsSelected exDiamond exPaths4 4).length = 4 ∧
    (exPaths4.all fun p => isPathB exDiamond "A" "B" p && p.length == 3) = true ∧
    ¬((getOptimalPathsSelected exDiamond exPaths4 4).length ≤ 3) := by
  decide

theorem pyMax_ne_nil {α : Type} {l : List α} {f : α → Rat} (h : l ≠ []) :
    ∃ c, pyMax l f = some c := by
  match l, h with
  | x :: xs, _ => exact ⟨_, rfl⟩

theorem greedyLoop_length (g : ActorGraph) (k : Int) :
    ∀ (n : Nat) (rem : List (List String)), rem.length = n →
    ∀ sel : List (List String),
      (greedyLoop g k sel rem).length
        = sel.length + min (k - (sel.length : Int)).toNat rem.length := by
  intro n
  induction n with
  | zero =>
    intro rem hrem sel
    have h0 : rem = [] := List.length_eq_zero.mp hrem
    subst h0
    rw [greedyLoop]
    simp
  | succ m ih =>
    intro rem hrem sel
    rw [greedyLoop]
    by_cases hcond : ((sel.length : Int) < k ∧ rem ≠ [])
    · rw [dif_pos hcond]
      cases hm : pyMax rem
          (fun c => pyMinQ (sel.map fun sp => calculate_path_similarity g c sp)) with
      | none =>
        obtain ⟨c, hc⟩ := pyMax_ne_nil (f := fun c =>
          pyMinQ (sel.map fun sp => calculate_path_similarity g c sp)) hcond.2
        rw [hm] at hc
        cases hc
      | some c =>
        have hmem := pyMax_mem hm
        have herase : (rem.erase c).length = m := by
          rw [List.length_erase_of_mem hmem, hrem]
          omega
        rw [ih (rem.erase c) herase (sel ++ [c])]
        have hklt : (sel.length : Int) < k := hcond.1
        simp only [List.length_append, List.length_cons, List.length_nil]
        rw [hrem]
        omega
    · rw [dif_neg hcond]
      by_cases h1 : (sel.length : Int) < k
      · have h2 : rem = [] := by
          by_contra hne
          exact hcond ⟨h1, hne⟩
        subst h2
        simp
      · have : (k - (sel.length : Int)).toNat = 0 := by omega
        rw [this]
        simp

theorem length_filter_ne_of_nodup {α : Type} [DecidableEq α] :
    ∀ l : List α, l.Nodup → ∀ a ∈ l,
      (l.filter fun x => x ≠ a).length = l.length - 1 := by
  intro l
  induction l with
  | nil => intro _ a ha; cases ha
  | cons y ys ih =>
    intro hnd a ha
    obtain ⟨hy_nin, hys⟩ := List.nodup_cons.mp hnd
    by_cases hy : y = a
    · subst hy
      have hall : ys.filter (fun x => x ≠ y) = ys := by
        apply List.filter_eq_self.mpr
        intro x hx
        have : x ≠ y := fun he => hy_nin (he ▸ hx)
        simpa using this
      simp only [List.filter_cons]
      rw [if_neg (by simp)]
      rw [hall]
      simp
    · have hays : a ∈ ys := by
        rcases List.mem_cons.mp ha with h | h
        · exact absurd h.symm hy
        · exact h
      have hpos : 0 < ys.length := List.length_pos_of_mem hays
      have := ih hys a hays
      simp only [List.filter_cons]
      rw [if_pos (by simpa using hy)]
      simp only [List.length_cons]
      omega

/-- C5 (amended): no clamping of `max_paths` to 3 occurs.  For a
duplicate-free non-empty candidate list P (as produced by the
shortest-path enumeration), the endpoint returns all of P whenever
`|P| ≤ max_paths`, and otherwise exactly `max(1, max_paths)` paths —
in particular any requested count up to |P| (itself capped at 100 by
the enumeration) is honored. -/
theorem claim5_theorem (g : ActorGraph) (all_paths : List (List String)) (k : Int)
    (hnd : all_paths.Nodup) (hne : all_paths ≠ []) :
    (getOptimalPathsSelected g all_paths k).length
      = if (all_paths.length : Int) ≤ k then all_paths.length else max 1 k.toNat := by
  unfold getOptimalPathsSelected select_diverse_paths
  by_cases hle : (all_paths.length : Int) ≤ k
  · rw [if_pos hle, if_pos hle]
  · rw [if_neg hle, if_neg hle]
    cases hm : pyMax all_paths (pathPopularity g) with
    | none =>
      obtain ⟨c, hc⟩ := pyMax_ne_nil (f := pathPopularity g) hne
      rw [hm] at hc
      cases hc
    | some best =>
      have hmem := pyMax_mem hm
      have hflen : (all_paths.filter fun p => p ≠ best).length = all_paths.length - 1 :=
        length_filter_ne_of_nodup all_paths hnd best hmem
      rw [greedyLoop_length g k (all_paths.filter fun p => p ≠ best).length
        (all_paths.filter fun p => p ≠ best) rfl [best]]
      rw [hflen]
      have hlen1 : 0 < all_paths.length := List.length_pos_of_mem hmem
      have hgt : k < (all_paths.length : Int) := Int.not_le.mp hle
      simp only [List.length_cons, List.length_nil]
      omega

/-- C5 witness: the amended theorem at the diamond graph with four
shortest paths and `max_paths = 4`. -/
theorem claim5_witness :
    (getOptimalPathsSelected exDiamond exPaths4 4).length
      = if ((exPaths4.length : Int) ≤ 4) then exPaths4.length else max 1 (Int.toNat 4) :=
  claim5_theorem exDiamond exPaths4 4 (by decide) (by decide)

/-! ## Claim C8 — single best path selection -/

theorem bestPathLoop_char (g : ActorGraph) :
    ∀ (l : List (List String)) (bq : Rat) (bp : Option (List String)),
      (bestPathLoop g l bq bp = (bq, bp) ∧ ∀ x ∈ l, pathPopularity g x ≤ bq)
      ∨ (∃ pre r post, l = pre ++ r :: post ∧
          bestPathLoop g l bq bp = (pathPopularity g r, some r) ∧
          bq < pathPopularity g r ∧
          (∀ x ∈ pre, pathPopularity g x < pathPopularity g r) ∧
          (∀ x ∈ post, pathPopularity g x ≤ pathPopularity g r)) := by
  intro l
  induction l with
  | nil => intro bq bp; left; exact ⟨rfl, by simp⟩
  | cons p rest ih =>
    intro bq bp
    by_cases hp : bq < pathPopularity g p
    · rcases ih (pathPopularity g p) (some p)
        with ⟨heq, hub⟩ | ⟨pre, r, post, hsplit, heq, hgt, hpre, hpost⟩
      · right
        refine ⟨[], p, rest, by simp, ?_, hp, by simp, hub⟩
        simp only [bestPathLoop]
        rw [if_pos hp]
        exact heq
      · right
        refine ⟨p :: pre, r, post, by simp [hsplit], ?_, lt_trans hp hgt, ?_, hpost⟩
        · simp only [bestPathLoop]
          rw [if_pos hp]
          exact heq
        · intro x hx
          rcases List.mem_cons.mp hx with hx1 | hx2
          · rw [hx1]; exact hgt
          · exact hpre x hx2
    · rcases ih bq bp
        with ⟨heq, hub⟩ | ⟨pre, r, post, hsplit, heq, hgt, hpre, hpost⟩
      · left
        constructor
        · simp only [bestPathLoop]
          rw [if_neg hp]
          exact heq
        · intro x hx
          rcases List.mem_cons.mp hx with hx1 | hx2
          · rw [hx1]; exact not_lt.mp hp
          · exact hub x hx2
      · right
        refine ⟨p :: pre, r, post, by simp [hsplit], ?_, hgt, ?_, hpost⟩
        · simp only [bestPathLoop]
          rw [if_neg hp]
          exact heq
        · intro x hx
          rcases List.mem_cons.mp hx with hx1 | hx2
          · rw [hx1]; exact lt_of_le_of_lt (not_lt.mp hp) hgt
          · exact hpre x hx2

theorem isPathB_ne_nil {g : ActorGraph} {s t : String} {p : List String}
    (h : isPathB g s t p = true) : p ≠ [] := by
  intro he
  subst he
  simp [isPathB] at h

/-- C8: given the complete enumeration of the equal-hop shortest paths
between start and target (the contract of the graph library call), with
non-negative popularity scores, the endpoint's selected path is a path
from start to target of minimum hop count; it maximizes the sum over
consecutive pairs of the maximum movie popularity per edge among all
shortest paths, and it is the earliest-enumerated path attaining that
maximum (every strictly earlier candidate scores strictly lower). -/
theorem claim8_theorem (g : ActorGraph) (s t : String)
    (paths : List (List String)) (L : Nat)
    (hne : paths ≠ [])
    (hall : ∀ p ∈ paths, isPathB g s t p = true ∧ p.length = L)
    (hcomplete : ∀ q, isPathB g s t q = true → q.length = L → q ∈ paths)
    (hmin : ∀ q, isPathB g s t q = true → L ≤ q.length)
    (hpos : ∀ p ∈ paths, 0 ≤ pathPopularity g p) :
    isPathB g s t (getOptimalPathActors g paths) = true ∧
    (∀ q, isPathB g s t q = true →
      (getOptimalPathActors g paths).length ≤ q.length) ∧
    (∀ q, isPathB g s t q = true → q.length = L →
      pathPopularity g q ≤ pathPopularity g (getOptimalPathActors g paths)) ∧
    (∃ pre post, paths = pre ++ getOptimalPathActors g paths :: post ∧
      ∀ p ∈ pre, pathPopularity g p < pathPopularity g (getOptimalPathActors g paths)) := by
  have key : ∃ pre post, paths = pre ++ getOptimalPathActors g paths :: post ∧
      (∀ p ∈ pre, pathPopularity g p < pathPopularity g (getOptimalPathActors g paths)) ∧
      (∀ p ∈ paths, pathPopularity g p ≤ pathPopularity g (getOptimalPathActors g paths)) := by
    unfold getOptimalPathActors
    by_cases hlen1 : paths.length = 1
    · rw [if_pos hlen1]
      cases paths with
      | nil => cases hlen1
      | cons p0 rest =>
        cases rest with
        | nil =>
          refine ⟨[], [], by simp, by simp, ?_⟩
          intro p hp
          rcases List.mem_singleton.mp hp with rfl
          exact le_refl _
        | cons p1 rest2 => simp at hlen1
    · rw [if_neg hlen1]
      rcases bestPathLoop_char g paths (-1) none
        with ⟨heq, hub⟩ | ⟨pre, r, post, hsplit, heq, hgt, hpre, hpost⟩
      · exfalso
        obtain ⟨p0, rest, rfl⟩ := List.exists_cons_of_ne_nil hne
        have h1 := hub p0 (by simp)
        have h2 := hpos p0 (by simp)
        linarith
      · rw [heq]
        dsimp only
        have hrmem : r ∈ paths := by
          rw [hsplit]
          exact List.mem_append.mpr (Or.inr (List.mem_cons_self r post))
        have hrnil : r ≠ [] := isPathB_ne_nil (hall r hrmem).1
        rw [if_neg (by simpa [List.isEmpty_iff_eq_nil] using hrnil)]
        refine ⟨pre, post, hsplit, hpre, ?_⟩
        intro p hp
        rw [hsplit] at hp
        rcases List.mem_append.mp hp with hp1 | hp2
        · exact (hpre p hp1).le
        · rcases List.mem_cons.mp hp2 with hp3 | hp4
          · rw [hp3]
          · exact hpost p hp4
  obtain ⟨pre, post, hsplit, hpre, hub⟩ := key
  generalize hr : getOptimalPathActors g paths = r at *
  have hrmem : r ∈ paths := by
    rw [hsplit]
    exact List.mem_append.mpr (Or.inr (List.mem_cons_self _ post))
  have hrpath := (hall _ hrmem).1
  have hrlen := (hall _ hrmem).2
  refine ⟨hrpath, ?_, ?_, pre, post, hsplit, hpre⟩
  · intro q hq
    rw [hrlen]
    exact hmin q hq
  · intro q hq hqL
    exact hub q (hcomplete q hq hqL)

theorem le_foldl_max (b : Rat) : ∀ l : List Rat, b ≤ l.foldl max b := by
  intro l
  induction l generalizing b with
  | nil => exact le_refl _
  | cons c cs ih => exact le_trans (le_max_left b c) (ih (max b c))

theorem findEdge_movies_mem (g : ActorGraph) (a b : String) (ms : List Movie)
    (h : findEdge g a b = some ms) : ∃ e ∈ g.edges, e.2.2 = ms := by
  unfold findEdge at h
  obtain ⟨e, he, hfe⟩ := List.exists_of_findSome?_eq_some h
  refine ⟨e, he, ?_⟩
  by_cases hc : (e.1 = a ∧ e.2.1 = b) ∨ (e.1 = b ∧ e.2.1 = a)
  · rw [if_pos hc] at hfe
    exact (Option.some.injEq .. ▸ hfe)
  · rw [if_neg hc] at hfe
    cases hfe

/-- Edge popularity values are non-negative throughout the graph, so
every path's popularity score is non-negative. -/
theorem pathPopularity_nonneg (g : ActorGraph)
    (hg : ∀ e ∈ g.edges, ∀ mv ∈ e.2.2, 0 ≤ mv.popularity) (p : List String) :
    0 ≤ pathPopularity g p := by
  unfold pathPopularity
  have step : ∀ (l : List (String × String)) (acc : Rat), 0 ≤ acc →
      0 ≤ l.foldl (fun acc ab =>
        match get_movies_between_actors g ab.1 ab.2 with
        | [] => acc
        | m :: rest => acc + rest.foldl (fun q mv => max q mv.popularity) m.popularity) acc := by
    intro l
    induction l with
    | nil => intro acc hacc; exact hacc
    | cons ab l2 ih =>
      intro acc hacc
      simp only [List.foldl_cons]
      cases hmv : get_movies_between_actors g ab.1 ab.2 with
      | nil => exact ih acc hacc
      | cons m rest =>
        apply ih
        dsimp only
        have hmem : ∀ mv ∈ m :: rest, 0 ≤ mv.popularity := by
          unfold get_movies_between_actors at hmv
          cases hfe : findEdge g ab.1 ab.2 with
          | none => rw [hfe] at hmv; cases hmv
          | some ms =>
            rw [hfe] at hmv
            have hms2 : ms = m :: rest := by simpa using hmv
            obtain ⟨e, he, hms⟩ := findEdge_movies_mem g ab.1 ab.2 ms hfe
            intro mv hmvmem
            apply hg e he
            rw [hms, hms2]
            exact hmvmem
        have h0 : (0 : Rat) ≤ m.popularity := hmem m (List.mem_cons_self m rest)
        have h1 : m.popularity ≤ rest.foldl (fun q mv => max q mv.popularity) m.popularity := by
          have := le_foldl_max m.popularity (rest.map Movie.popularity)
          rw [List.foldl_map] at this
          exact this
        exact add_nonneg hacc (le_trans h0 h1)
  exact step (p.zip p.tail) 0 (le_refl 0)

/-- C8 witness: the theorem at the example graph, whose single edge
makes `[["actor_1", "actor_2"]]` the complete list of shortest paths of
hop count 2. -/
theorem claim8_witness :
    isPathB exGraph "actor_1" "actor_2"
        (getOptimalPathActors exGraph [["actor_1", "actor_2"]]) = true ∧
    (∀ q, isPathB exGraph "actor_1" "actor_2" q = true →
      (getOptimalPathActors exGraph [["actor_1", "actor_2"]]).length ≤ q.length) ∧
    (∀ q, isPathB exGraph "actor_1" "actor_2" q = true → q.length = 2 →
      pathPopularity exGraph q
        ≤ pathPopularity exGraph (getOptimalPathActors exGraph [["actor_1", "actor_2"]])) ∧
    (∃ pre post, [["actor_1", "actor_2"]]
        = pre ++ getOptimalPathActors exGraph [["actor_1", "actor_2"]] :: post ∧
      ∀ p ∈ pre, pathPopularity exGraph p
        < pathPopularity exGraph (getOptimalPathActors exGraph [["actor_1", "actor_2"]])) :=
  claim8_theorem exGraph "actor_1" "actor_2" [["actor_1", "actor_2"]] 2
    (by decide)
    (by decide)
    (by
      intro q hq hlen
      cases q with
      | nil => simp at hlen
      | cons a q2 =>
        cases q2 with
        | nil => simp at hlen
        | cons b q3 =>
          cases q3 with
          | cons c q4 =>
            simp only [List.length_cons] at hlen
            omega
          | nil =>
            simp only [isPathB, Bool.and_eq_true, beq_iff_eq, List.head?_cons,
              List.getLast?_cons_cons, List.getLast?_singleton,
              Option.some.injEq] at hq
            obtain ⟨⟨ha, hb⟩, -⟩ := hq
            subst ha
            subst hb
            exact List.mem_singleton.mpr rfl)
    (by
      intro q hq
      cases q with
      | nil => simp [isPathB] at hq
      | cons a q2 =>
        cases q2 with
        | nil =>
          simp only [isPathB, Bool.and_eq_true, beq_iff_eq, List.head?_cons,
            List.getLast?_singleton, Option.some.injEq] at hq
          obtain ⟨⟨h1, h2⟩, -⟩ := hq
          subst h1
          exact absurd h2 (by decide)
        | cons b q3 =>
          simp only [List.length_cons]
          omega)
    (fun p _ => pathPopularity_nonneg exGraph (by decide) p)

end MovieLinks
